import Mathlib

/-!
Verification of the Change-Click utility (src/main.py).

The program watches a mouse side button; while it is held, a polling thread
samples a cluster of screen pixels and emits a synthetic key tap whenever the
cluster's colours change beyond a tolerance.  This file gives a shallow
embedding of the program's pure core (`ChangeDetector.has_changed`,
`NaturalKeySender.tap`) and a small-step model of the controller state machine
(`ChangeClickController`: `_begin_monitoring`, `_stop_monitoring`,
`_watch_for_changes`) with explicit interleaving of button events and
polling-loop steps, and proves or refutes the specified properties.
-/

namespace ChangeClick

/-- An RGB colour triple.  Python RGB values are plain ints. -/
abbrev RGB := Int × Int × Int

/-- The per-pixel Manhattan distance computed in `ChangeDetector.has_changed`:
`sum(abs(a - b) for a, b in zip(base, cur))`. -/
def pixelDelta (b c : RGB) : Int :=
  |b.1 - c.1| + |b.2.1 - c.2.1| + |b.2.2 - c.2.2|

/-- Configuration of `ChangeDetector` (src/main.py lines 102-104).
Defaults in the source are tolerance = 18, minimum_changed_pixels = 1. -/
structure ChangeDetector where
  tolerance : Int
  minimumChangedPixels : Int
deriving DecidableEq

/-- The detector built by `ChangeDetector()` with default arguments. -/
def defaultDetector : ChangeDetector := ⟨18, 1⟩

/-- The loop of `ChangeDetector.has_changed` (src/main.py lines 107-114),
carrying the running `changes` counter over the zipped pixel pairs.  The
`changes >= minimum` test is made only inside the `delta > tolerance` branch,
exactly as in the source. -/
def hasChangedAux (tol minPix : Int) : Int → List (RGB × RGB) → Bool
  | _, [] => false
  | changes, p :: rest =>
    if tol < pixelDelta p.1 p.2 then
      if minPix ≤ changes + 1 then true
      else hasChangedAux tol minPix (changes + 1) rest
    else hasChangedAux tol minPix changes rest

/-- `ChangeDetector.has_changed(baseline, current)` (src/main.py lines
106-114).  `zip` truncates to the shorter sequence, as in Python. -/
def ChangeDetector.has_changed (d : ChangeDetector) (baseline current : List RGB) : Bool :=
  hasChangedAux d.tolerance d.minimumChangedPixels 0 (baseline.zip current)

/-- A pixel pair counts as changed when its delta strictly exceeds the
tolerance (`delta > self._tolerance`). -/
def changedPair (tol : Int) (p : RGB × RGB) : Bool :=
  decide (tol < pixelDelta p.1 p.2)

/-- Instrumented copy of the `has_changed` loop that additionally returns how
many pixel pairs were examined before the function returned.  Step for step
identical to `hasChangedAux`; used to express the short-circuit property. -/
def hasChangedSteps (tol minPix : Int) : Int → List (RGB × RGB) → Bool × Nat
  | _, [] => (false, 0)
  | changes, p :: rest =>
    if tol < pixelDelta p.1 p.2 then
      if minPix ≤ changes + 1 then (true, 1)
      else
        let r := hasChangedSteps tol minPix (changes + 1) rest
        (r.1, r.2 + 1)
    else
      let r := hasChangedSteps tol minPix changes rest
      (r.1, r.2 + 1)

lemma hasChangedAux_eq_true_iff (tol minPix : Int) :
    ∀ (l : List (RGB × RGB)) (changes : Int), changes < minPix →
      (hasChangedAux tol minPix changes l = true ↔
        minPix ≤ changes + (l.countP (changedPair tol) : Int)) := by
  intro l
  induction l with
  | nil =>
    intro changes h
    simp only [hasChangedAux, List.countP_nil, Nat.cast_zero, add_zero]
    constructor
    · intro hf; cases hf
    · intro hle; omega
  | cons p rest ih =>
    intro changes h
    by_cases hp : tol < pixelDelta p.1 p.2
    · have hcount : ((p :: rest).countP (changedPair tol) : Int)
          = 1 + (rest.countP (changedPair tol) : Int) := by
        have : changedPair tol p = true := by
          simp [changedPair, hp]
        simp [List.countP_cons, this]
        ring
      rw [hcount]
      by_cases hm : minPix ≤ changes + 1
      · have hred : hasChangedAux tol minPix changes (p :: rest) = true := by
          simp [hasChangedAux, hp, hm]
        rw [hred]
        have hc : (0 : Int) ≤ (rest.countP (changedPair tol) : Int) := Int.natCast_nonneg _
        constructor
        · intro _; omega
        · intro _; rfl
      · have hred : hasChangedAux tol minPix changes (p :: rest)
            = hasChangedAux tol minPix (changes + 1) rest := by
          simp [hasChangedAux, hp, hm]
        rw [hred, ih (changes + 1) (by omega)]
        omega
    · have hcount : ((p :: rest).countP (changedPair tol) : Int)
          = (rest.countP (changedPair tol) : Int) := by
        have : changedPair tol p = false := by
          simp [changedPair, hp]
        simp [List.countP_cons, this]
      rw [hcount]
      have hred : hasChangedAux tol minPix changes (p :: rest)
          = hasChangedAux tol minPix changes rest := by
        simp [hasChangedAux, hp]
      rw [hred, ih changes h]

lemma countP_zip_self_eq_zero (tol : Int) (htol : 0 ≤ tol) (a : List RGB) :
    (a.zip a).countP (changedPair tol) = 0 := by
  induction a with
  | nil => simp
  | cons x xs ih =>
    simp only [List.zip_cons_cons, List.countP_cons, ih]
    have hx : changedPair tol (x, x) = false := by
      simp only [changedPair, pixelDelta, sub_self, abs_zero, add_zero,
        decide_eq_false_iff_not, not_lt]
      omega
    simp [hx]

/-- C2: for equal-length colour sequences, tolerance ≥ 0 and
minChangedPixels k ≥ 1, `has_changed(baseline, current)` is true iff the
number of indices whose per-pixel Manhattan distance strictly exceeds the
tolerance is at least k; in particular `has_changed(A, A)` is always false. -/
theorem has_changed_iff_count (tol k : Int) (htol : 0 ≤ tol) (hk : 1 ≤ k) :
    (∀ b c : List RGB, b.length = c.length →
      (ChangeDetector.has_changed ⟨tol, k⟩ b c = true ↔
        k ≤ ((b.zip c).countP (changedPair tol) : Int))) ∧
    (∀ a : List RGB, ChangeDetector.has_changed ⟨tol, k⟩ a a = false) := by
  have key : ∀ b c : List RGB,
      (ChangeDetector.has_changed ⟨tol, k⟩ b c = true ↔
        k ≤ ((b.zip c).countP (changedPair tol) : Int)) := by
    intro b c
    have h0 : (0 : Int) < k := by omega
    have := hasChangedAux_eq_true_iff tol k (b.zip c) 0 h0
    simpa [ChangeDetector.has_changed] using this
  refine ⟨fun b c _ => key b c, fun a => ?_⟩
  have h := key a a
  rw [countP_zip_self_eq_zero tol htol a] at h
  have : ¬ (ChangeDetector.has_changed ⟨tol, k⟩ a a = true) := by
    rw [h]
    push_cast
    omega
  simpa using this

/-- Witness for `has_changed_iff_count` at tolerance 18, k = 1, with one pixel
changed by more than the tolerance. -/
theorem has_changed_iff_count_witness :
    ((0 : Int) ≤ 18 ∧ (1 : Int) ≤ 1) ∧
      ((ChangeDetector.has_changed ⟨18, 1⟩ [(0, 0, 0)] [(100, 0, 0)] = true ↔
        (1 : Int) ≤ (([((0 : Int), (0 : Int), (0 : Int))].zip
          [((100 : Int), (0 : Int), (0 : Int))]).countP (changedPair 18) : Int)) ∧
       ChangeDetector.has_changed ⟨18, 1⟩ [((5 : Int), (5 : Int), (5 : Int))]
         [(5, 5, 5)] = false) :=
  ⟨⟨by decide, by decide⟩,
    ⟨(has_changed_iff_count 18 1 (by decide) (by decide)).1
        [(0, 0, 0)] [(100, 0, 0)] (by decide),
      (has_changed_iff_count 18 1 (by decide) (by decide)).2 [(5, 5, 5)]⟩⟩

lemma hasChangedSteps_fst (tol minPix : Int) :
    ∀ (l : List (RGB × RGB)) (changes : Int),
      (hasChangedSteps tol minPix changes l).1 = hasChangedAux tol minPix changes l := by
  intro l
  induction l with
  | nil => intro changes; rfl
  | cons p rest ih =>
    intro changes
    by_cases hp : tol < pixelDelta p.1 p.2
    · by_cases hm : minPix ≤ changes + 1
      · simp [hasChangedSteps, hasChangedAux, hp, hm]
      · simp [hasChangedSteps, hasChangedAux, hp, hm, ih]
    · simp [hasChangedSteps, hasChangedAux, hp, ih]

lemma hasChangedSteps_firstReach (tol k : Int) :
    ∀ (l : List (RGB × RGB)) (i : Nat) (changes : Int),
      changes < k →
      k ≤ changes + (((l.take (i + 1)).countP (changedPair tol)) : Int) →
      (∀ j < i, changes + (((l.take (j + 1)).countP (changedPair tol)) : Int) < k) →
      hasChangedSteps tol k changes l = (true, i + 1) := by
  intro l
  induction l with
  | nil =>
    intro i changes h hreach _
    exfalso
    simp only [List.take_nil, List.countP_nil, Nat.cast_zero, add_zero] at hreach
    omega
  | cons p rest ih =>
    intro i changes h hreach hmin
    by_cases hp : tol < pixelDelta p.1 p.2
    · have hcp : changedPair tol p = true := by simp [changedPair, hp]
      by_cases hm : k ≤ changes + 1
      · have hi : i = 0 := by
          by_contra hne
          have h0 := hmin 0 (Nat.pos_of_ne_zero hne)
          simp only [List.take_succ_cons, List.take_zero, List.countP_cons,
            List.countP_nil, hcp, if_true, Nat.cast_add, Nat.cast_zero,
            Nat.cast_one] at h0
          omega
        subst hi
        simp [hasChangedSteps, hp, hm]
      · obtain ⟨i', rfl⟩ : ∃ i', i = i' + 1 := by
          rcases i with _ | i'
          · exfalso
            simp only [List.take_succ_cons, List.take_zero, List.countP_cons,
              List.countP_nil, hcp, if_true, Nat.cast_add, Nat.cast_zero,
              Nat.cast_one] at hreach
            omega
          · exact ⟨i', rfl⟩
        have hreach' : k ≤ changes + 1 +
            (((rest.take (i' + 1)).countP (changedPair tol)) : Int) := by
          simp only [List.take_succ_cons, List.countP_cons, hcp, if_true,
            Nat.cast_add, Nat.cast_one] at hreach
          omega
        have hmin' : ∀ j < i', changes + 1 +
            (((rest.take (j + 1)).countP (changedPair tol)) : Int) < k := by
          intro j hj
          have := hmin (j + 1) (by omega)
          simp only [List.take_succ_cons, List.countP_cons, hcp, if_true,
            Nat.cast_add, Nat.cast_one] at this
          omega
        have hrec := ih i' (changes + 1) (by omega) hreach' hmin'
        simp [hasChangedSteps, hp, hm, hrec]
    · have hcp : changedPair tol p = false := by simp [changedPair, hp]
      obtain ⟨i', rfl⟩ : ∃ i', i = i' + 1 := by
        rcases i with _ | i'
        · exfalso
          simp [List.take_succ_cons, List.countP_cons, hcp] at hreach
          omega
        · exact ⟨i', rfl⟩
      have hreach' : k ≤ changes +
          (((rest.take (i' + 1)).countP (changedPair tol)) : Int) := by
        simp [List.take_succ_cons, List.countP_cons, hcp] at hreach
        omega
      have hmin' : ∀ j < i', changes +
          (((rest.take (j + 1)).countP (changedPair tol)) : Int) < k := by
        intro j hj
        have := hmin (j + 1) (by omega)
        simp [List.take_succ_cons, List.countP_cons, hcp] at this
        omega
      have hrec := ih i' changes h hreach' hmin'
      simp [hasChangedSteps, hp, hrec]

/-- C7: when the running count of pixels with delta > tolerance first reaches
minChangedPixels at index i, `has_changed` returns true and the instrumented
copy of its loop shows that exactly the pairs up to and including index i were
examined — no later pixel pair is evaluated. -/
theorem has_changed_short_circuit (tol k : Int) (hk : 1 ≤ k) (b c : List RGB) (i : Nat)
    (hreach : k ≤ ((((b.zip c).take (i + 1)).countP (changedPair tol)) : Int))
    (hmin : ∀ j < i, ((((b.zip c).take (j + 1)).countP (changedPair tol)) : Int) < k) :
    ChangeDetector.has_changed ⟨tol, k⟩ b c = true ∧
      hasChangedSteps tol k 0 (b.zip c) = (true, i + 1) := by
  have hsteps := hasChangedSteps_firstReach tol k (b.zip c) i 0 (by omega)
    (by simpa using hreach) (by intro j hj; simpa using hmin j hj)
  refine ⟨?_, hsteps⟩
  show hasChangedAux tol k 0 (b.zip c) = true
  rw [← hasChangedSteps_fst, hsteps]

/-- Witness for `has_changed_short_circuit`: with the default tolerance 18 and
k = 1, a first pixel changed by 100 short-circuits after one examined pair. -/
theorem has_changed_short_circuit_witness :
    ((1 : Int) ≤ 1 ∧
      (1 : Int) ≤ (((([((0 : Int), (0 : Int), (0 : Int)), (0, 0, 0)].zip
        [((100 : Int), (0 : Int), (0 : Int)), (0, 0, 0)]).take (0 + 1)).countP
          (changedPair 18)) : Int)) ∧
    (ChangeDetector.has_changed ⟨18, 1⟩ [(0, 0, 0), (0, 0, 0)]
        [(100, 0, 0), (0, 0, 0)] = true ∧
      hasChangedSteps 18 1 0 ([((0 : Int), (0 : Int), (0 : Int)), (0, 0, 0)].zip
        [((100 : Int), (0 : Int), (0 : Int)), (0, 0, 0)]) = (true, 0 + 1)) :=
  ⟨⟨by decide, by decide⟩,
    has_changed_short_circuit 18 1 (by decide) [(0, 0, 0), (0, 0, 0)]
      [(100, 0, 0), (0, 0, 0)] 0 (by decide) (by intro j hj; omega)⟩

lemma zip_take_min {α β : Type} :
    ∀ (b : List α) (c : List β),
      (b.take (min b.length c.length)).zip (c.take (min b.length c.length)) = b.zip c := by
  intro b
  induction b with
  | nil => intro c; simp
  | cons x xs ih =>
    intro c
    cases c with
    | nil => simp
    | cons y ys =>
      simp only [List.length_cons]
      have hmin : min (xs.length + 1) (ys.length + 1) = min xs.length ys.length + 1 := by
        omega
      rw [hmin]
      simp only [List.take_succ_cons, List.zip_cons_cons, ih ys]

/-- C9: `has_changed` on sequences of unequal length equals `has_changed` on
the first min(len(baseline), len(current)) positionally aligned pairs — the
trailing pixels of the longer sequence are ignored, and the function is total
(in Python, `zip` truncates and no exception is raised). -/
theorem has_changed_truncates (d : ChangeDetector) (b c : List RGB) :
    ChangeDetector.has_changed d b c =
      ChangeDetector.has_changed d (b.take (min b.length c.length))
        (c.take (min b.length c.length)) := by
  unfold ChangeDetector.has_changed
  rw [zip_take_min]

/-! ## NaturalKeySender (src/main.py lines 117-130) -/

/-- One observable action of `NaturalKeySender.tap`: a sleep of some duration
in seconds, a key press, or a key release. -/
inductive KeyEvent
  | sleep (seconds : ℚ)
  | press (key : Char)
  | release (key : Char)
deriving DecidableEq

/-- `random.uniform(a, b)`: a value `a + r * (b - a)` for a random
`r ∈ [0, 1]`; the draw `r` is passed in explicitly. -/
def randUniform (a b r : ℚ) : ℚ := a + r * (b - a)

/-- `NaturalKeySender` holds a fixed key (the default is the character x). -/
structure NaturalKeySender where
  key : Char

/-- The event trace of one `NaturalKeySender.tap()` call (src/main.py lines
125-130), given the two random draws `r1, r2 ∈ [0, 1]` that `random.uniform`
consumes: sleep `uniform(0.03, 0.08)`, press the key, sleep
`uniform(0.01, 0.04)`, release the key. -/
def NaturalKeySender.tap (s : NaturalKeySender) (r1 r2 : ℚ) : List KeyEvent :=
  [.sleep (randUniform 0.03 0.08 r1), .press s.key,
   .sleep (randUniform 0.01 0.04 r2), .release s.key]

/-- Whether a key event is a press. -/
def KeyEvent.isPressEv : KeyEvent → Bool
  | .press _ => true
  | _ => false

/-- Whether a key event is a release. -/
def KeyEvent.isReleaseEv : KeyEvent → Bool
  | .release _ => true
  | _ => false

lemma randUniform_mem (a b r : ℚ) (hab : a ≤ b) (h0 : 0 ≤ r) (h1 : r ≤ 1) :
    a ≤ randUniform a b r ∧ randUniform a b r ≤ b := by
  unfold randUniform
  constructor
  · nlinarith
  · nlinarith

/-- C8: every `tap()` performs exactly one press of the fixed key followed by
exactly one release of that same key, with the pre-press delay in
[0.03 s, 0.08 s] and the hold delay in [0.01 s, 0.04 s] (the ranges of the two
independent `random.uniform` calls). -/
theorem tap_press_release_delays (s : NaturalKeySender) (r1 r2 : ℚ)
    (h10 : 0 ≤ r1) (h11 : r1 ≤ 1) (h20 : 0 ≤ r2) (h21 : r2 ≤ 1) :
    (s.tap r1 r2).countP KeyEvent.isPressEv = 1 ∧
    (s.tap r1 r2).countP KeyEvent.isReleaseEv = 1 ∧
    ∃ d1 d2 : ℚ,
      s.tap r1 r2 = [.sleep d1, .press s.key, .sleep d2, .release s.key] ∧
      0.03 ≤ d1 ∧ d1 ≤ 0.08 ∧ 0.01 ≤ d2 ∧ d2 ≤ 0.04 := by
  have hb1 := randUniform_mem 0.03 0.08 r1 (by norm_num) h10 h11
  have hb2 := randUniform_mem 0.01 0.04 r2 (by norm_num) h20 h21
  refine ⟨?_, ?_, randUniform 0.03 0.08 r1, randUniform 0.01 0.04 r2,
    rfl, hb1.1, hb1.2, hb2.1, hb2.2⟩
  · simp [NaturalKeySender.tap, List.countP_cons, KeyEvent.isPressEv]
  · simp [NaturalKeySender.tap, List.countP_cons, KeyEvent.isReleaseEv]

/-- Witness for `tap_press_release_delays` at the fixed key x and draws
r1 = r2 = 1/2. -/
theorem tap_press_release_delays_witness :
    ((0 : ℚ) ≤ 1/2 ∧ (1 : ℚ)/2 ≤ 1) ∧
    ((NaturalKeySender.mk 'x').tap (1/2) (1/2)).countP KeyEvent.isPressEv = 1 ∧
    ((NaturalKeySender.mk 'x').tap (1/2) (1/2)).countP KeyEvent.isReleaseEv = 1 ∧
    ∃ d1 d2 : ℚ,
      (NaturalKeySender.mk 'x').tap (1/2) (1/2) =
        [.sleep d1, .press 'x', .sleep d2, .release 'x'] ∧
      0.03 ≤ d1 ∧ d1 ≤ 0.08 ∧ 0.01 ≤ d2 ∧ d2 ≤ 0.04 :=
  ⟨⟨by norm_num, by norm_num⟩,
    tap_press_release_delays (NaturalKeySender.mk 'x') (1/2) (1/2)
      (by norm_num) (by norm_num) (by norm_num) (by norm_num)⟩

/-! ## ChangeClickController (src/main.py lines 133-194)

The controller's shared state is `self._baseline`, `self._monitoring` and the
spawned polling threads, all guarded by `self._state_lock`.  We model an
execution as an interleaving of atomic steps, each corresponding to one
lock-protected region or one unlocked action of the source:

* `press r` — `_begin_monitoring` (lines 169-176), with `r` the result of the
  initial `self._sampler.sample()` call (`none` models a raised exception);
* `release` — `_stop_monitoring` (lines 178-181);
* `checkStep` — the locked check at the top of `_watch_for_changes`
  (lines 185-188), which snapshots the baseline or breaks out of the loop;
* `sampleStep r` — the unlocked `self._sampler.sample()` plus the pure
  `has_changed` comparison (lines 189-190; `none` models a raised exception,
  which kills the thread since the loop has no handler);
* `tapStep` — `self._sender.tap()` (line 191);
* `rebaseStep` — the locked `self._baseline = current` write (lines 192-193);
* `sleepStep` — `time.sleep(self._poll_interval)` (line 194).

Each spawned polling thread is tracked by its position in the loop body. -/

/-- Position of one polling thread inside the `_watch_for_changes` body. -/
inductive LoopPC
  | check
  | sampling (snapshot : List RGB)
  | tapping (current : List RGB)
  | rebasing (current : List RGB)
  | sleeping
  | done
  | crashed
deriving DecidableEq

/-- The controller's shared state plus the program counters of all polling
threads spawned so far (`tasks` index = spawn order). -/
structure CState where
  baseline : Option (List RGB)
  monitoring : Bool
  tasks : List LoopPC
deriving DecidableEq

/-- The state of a freshly constructed controller: `self._baseline = None`,
`self._monitoring = False`, no thread. -/
def initState : CState := ⟨none, false, []⟩

/-- One atomic step label: a button-event callback or one polling-loop action
of thread `tid`. -/
inductive Label
  | press (r : Option (List RGB))
  | release
  | checkStep (tid : Nat)
  | sampleStep (tid : Nat) (r : Option (List RGB))
  | tapStep (tid : Nat)
  | rebaseStep (tid : Nat)
  | sleepStep (tid : Nat)
deriving DecidableEq

/-- One atomic step of the controller; `none` when the labelled action is not
enabled in state `s`.  Each branch is read off the corresponding source
lines (see the section comment). -/
def stepCtl (d : ChangeDetector) (s : CState) : Label → Option CState
  | .press r =>
    if s.monitoring then
      -- lines 171-172: already monitoring, immediate return
      some s
    else
      match r with
      | none =>
        -- line 173 raised: the assignment and everything after are skipped
        some s
      | some cols =>
        -- lines 173-176
        some ⟨some cols, true, s.tasks ++ [.check]⟩
  | .release =>
    -- lines 179-181 (unconditional)
    some ⟨none, false, s.tasks⟩
  | .checkStep tid =>
    match s.tasks[tid]? with
    | some .check =>
      -- lines 186-188: break when not monitoring or baseline is None
      if s.monitoring then
        match s.baseline with
        | some b => some { s with tasks := s.tasks.set tid (.sampling b) }
        | none => some { s with tasks := s.tasks.set tid .done }
      else
        some { s with tasks := s.tasks.set tid .done }
    | _ => none
  | .sampleStep tid r =>
    match s.tasks[tid]? with
    | some (.sampling b) =>
      match r with
      | none =>
        -- line 189 raised: no handler, the thread dies with the exception
        some { s with tasks := s.tasks.set tid .crashed }
      | some cur =>
        -- line 190
        if d.has_changed b cur then
          some { s with tasks := s.tasks.set tid (.tapping cur) }
        else
          some { s with tasks := s.tasks.set tid .sleeping }
    | _ => none
  | .tapStep tid =>
    match s.tasks[tid]? with
    | some (.tapping cur) =>
      -- line 191
      some { s with tasks := s.tasks.set tid (.rebasing cur) }
    | _ => none
  | .rebaseStep tid =>
    match s.tasks[tid]? with
    | some (.rebasing cur) =>
      -- lines 192-193 (unconditional write under the lock)
      some { s with baseline := some cur, tasks := s.tasks.set tid .sleeping }
    | _ => none
  | .sleepStep tid =>
    match s.tasks[tid]? with
    | some .sleeping =>
      -- line 194, then back to the top of the while loop
      some { s with tasks := s.tasks.set tid .check }
    | _ => none

/-- Run a sequence of atomic steps; `none` if any step is not enabled. -/
def runCtl (d : ChangeDetector) (s : CState) : List Label → Option CState
  | [] => some s
  | l :: ls =>
    match stepCtl d s l with
    | some s1 => runCtl d s1 ls
    | none => none

/-- A polling thread is live unless its loop has exited or its thread died
with an exception. -/
def LoopPC.live : LoopPC → Bool
  | .done => false
  | .crashed => false
  | _ => true

/-- Number of live polling threads. -/
def liveTasks (s : CState) : Nat := s.tasks.countP LoopPC.live

/-- The loop position of thread `tid` (threads never spawned count as exited). -/
def taskPC (s : CState) (tid : Nat) : LoopPC := (s.tasks[tid]?).getD .done

/-- Whether a label is a `ButtonPressed` callback. -/
def Label.isPressLbl : Label → Bool
  | .press _ => true
  | _ => false

/-- Whether a label is a sample step of thread `tid` (the start of one
comparison cycle of that thread). -/
def Label.isSampleOf (tid : Nat) : Label → Bool
  | .sampleStep t _ => t == tid
  | _ => false

/-- C3 (amended): a `ButtonPressed` event received while the controller is
already monitoring is a complete no-op — `_begin_monitoring` returns at the
`if self._monitoring` guard, so no new baseline is captured, no thread is
spawned and the state is exactly unchanged, no matter how many press events
arrive while active.  (The claim's stronger headline, that at most one polling
task exists at any time, fails on the code: see
`two_live_tasks_cex`.) -/
theorem buttonPressed_while_active_noop (d : ChangeDetector) (s : CState)
    (r : Option (List RGB)) (h : s.monitoring = true) :
    stepCtl d s (.press r) = some s := by
  simp [stepCtl, h]

/-- Witness for `buttonPressed_while_active_noop` on a concrete active
state. -/
theorem buttonPressed_while_active_noop_witness :
    (CState.mk (some [((0 : Int), (0 : Int), (0 : Int))]) true [.check]).monitoring
        = true ∧
    stepCtl defaultDetector ⟨some [(0, 0, 0)], true, [.check]⟩
        (.press (some [((1 : Int), (2 : Int), (3 : Int))])) =
      some ⟨some [(0, 0, 0)], true, [.check]⟩ :=
  ⟨rfl, buttonPressed_while_active_noop defaultDetector
    ⟨some [(0, 0, 0)], true, [.check]⟩ (some [(1, 2, 3)]) rfl⟩

/-- C3 counterexample: "at most one polling task exists at any time" is false.
A press spawns a task, the task passes its check, the button is released and
pressed again before that task observes the stop: `_begin_monitoring` sees
`self._monitoring == False` and spawns a second thread while the first is
still alive — two live polling tasks. -/
theorem two_live_tasks_cex :
    (runCtl defaultDetector initState
      [.press (some [(0, 0, 0)]), .checkStep 0, .release,
       .press (some [(0, 0, 0)]), .checkStep 1]).map liveTasks = some 2 := by
  decide

/-- C10: if the initial baseline capture in `_begin_monitoring` raises, the
transition is atomic: monitoring stays false, the baseline stays None and no
polling thread is created (the assignment on line 173 is skipped because its
right-hand side raised, and lines 174-176 are never reached). -/
theorem failed_begin_monitoring_atomic (d : ChangeDetector) (s : CState)
    (hmon : s.monitoring = false) (hbase : s.baseline = none) :
    (stepCtl d s (.press none)).map CState.monitoring = some false ∧
    (stepCtl d s (.press none)).map CState.baseline = some none ∧
    (stepCtl d s (.press none)).map CState.tasks = some s.tasks := by
  simp [stepCtl, hmon, hbase]

/-- Witness for `failed_begin_monitoring_atomic` at the initial state. -/
theorem failed_begin_monitoring_atomic_witness :
    (initState.monitoring = false ∧ initState.baseline = none) ∧
    ((stepCtl defaultDetector initState (.press none)).map CState.monitoring
        = some false ∧
      (stepCtl defaultDetector initState (.press none)).map CState.baseline
        = some none ∧
      (stepCtl defaultDetector initState (.press none)).map CState.tasks
        = some initState.tasks) :=
  ⟨⟨rfl, rfl⟩, failed_begin_monitoring_atomic defaultDetector initState rfl rfl⟩

/-- C5 (amended): a `ButtonReleased` event immediately clears the state —
right after `_stop_monitoring` the controller is not monitoring and the
baseline is None.  The claimed global invariant (the baseline is non-None
only while monitoring) is not preserved by later polling-loop steps: see
`baseline_reinstated_after_release_cex`. -/
theorem release_clears_baseline (d : ChangeDetector) (s s1 : CState)
    (h : stepCtl d s .release = some s1) :
    s1.monitoring = false ∧ s1.baseline = none := by
  simp only [stepCtl, Option.some.injEq] at h
  rw [← h]
  exact ⟨rfl, rfl⟩

/-- Witness for `release_clears_baseline` on a concrete active state. -/
theorem release_clears_baseline_witness :
    stepCtl defaultDetector ⟨some [((0 : Int), (0 : Int), (0 : Int))], true, [.check]⟩
        .release = some ⟨none, false, [.check]⟩ ∧
    ((⟨none, false, [.check]⟩ : CState).monitoring = false ∧
      (⟨none, false, [.check]⟩ : CState).baseline = none) :=
  ⟨rfl, release_clears_baseline defaultDetector
    ⟨some [(0, 0, 0)], true, [.check]⟩ ⟨none, false, [.check]⟩ rfl⟩

/-- C5 counterexample: the invariant "not monitoring → baseline is None"
fails.  A polling thread detects a change and taps; the button is released
(clearing the baseline); then the thread's pending `self._baseline = current`
write on lines 192-193 runs and reinstates a non-None baseline while the
controller is not monitoring. -/
theorem baseline_reinstated_after_release_cex :
    (runCtl defaultDetector initState
      [.press (some [(0, 0, 0)]), .checkStep 0, .sampleStep 0 (some [(100, 0, 0)]),
       .tapStep 0, .release, .rebaseStep 0]).map
        (fun s => (s.monitoring, s.baseline)) =
      some (false, some [(100, 0, 0)]) := by
  decide

/-- C4: rebase-on-change.  When a polling iteration's comparison detects a
change, the thread performs exactly one tap and then the locked baseline
write: after the sample step the thread is poised to tap and the baseline
still holds its old value, the tap step moves it to the rebase write, the
rebase write replaces the baseline with the sample taken in that same
iteration, and — with no interleaved button events — the next check snapshots
exactly that just-taken sample as the new comparison reference. -/
theorem rebase_on_change (d : ChangeDetector) (s : CState) (tid : Nat)
    (b cur : List RGB)
    (htask : s.tasks[tid]? = some (.sampling b))
    (hch : d.has_changed b cur = true)
    (hmon : s.monitoring = true) :
    ∃ s1 s2 s3 s4 : CState,
      stepCtl d s (.sampleStep tid (some cur)) = some s1 ∧
      s1.tasks[tid]? = some (.tapping cur) ∧ s1.baseline = s.baseline ∧
      stepCtl d s1 (.tapStep tid) = some s2 ∧
      s2.tasks[tid]? = some (.rebasing cur) ∧ s2.baseline = s.baseline ∧
      stepCtl d s2 (.rebaseStep tid) = some s3 ∧
      s3.baseline = some cur ∧
      runCtl d s3 [.sleepStep tid, .checkStep tid] = some s4 ∧
      s4.tasks[tid]? = some (.sampling cur) ∧ s4.baseline = some cur := by
  obtain ⟨hlt, -⟩ := List.getElem?_eq_some.mp htask
  refine ⟨{ s with tasks := s.tasks.set tid (.tapping cur) },
    { s with tasks := (s.tasks.set tid (.tapping cur)).set tid (.rebasing cur) },
    { s with baseline := some cur, tasks := (((s.tasks.set tid (.tapping cur)).set tid (.rebasing cur)).set tid .sleeping) },
    { s with baseline := some cur, tasks := (((((s.tasks.set tid (.tapping cur)).set tid (.rebasing cur)).set tid .sleeping).set tid .check).set tid (.sampling cur)) },
    ?_, ?_, ?_, ?_, ?_, ?_, ?_, ?_, ?_, ?_, ?_⟩
  · simp [stepCtl, htask, hch]
  · exact List.getElem?_set_self (by simpa using hlt)
  · rfl
  · simp [stepCtl, List.getElem?_set_self (by simpa using hlt)]
  · exact List.getElem?_set_self (by simpa using hlt)
  · rfl
  · simp [stepCtl, List.getElem?_set_self (by simpa using hlt)]
  · rfl
  · simp [runCtl, stepCtl, hmon, List.getElem?_set_self (by simpa using hlt)]
  · exact List.getElem?_set_self (by simpa using hlt)
  · rfl

/-- Witness for `rebase_on_change` on a concrete state with one thread that
has snapshotted the baseline and a sample changed beyond the tolerance. -/
theorem rebase_on_change_witness :
    ((CState.mk (some [((0 : Int), (0 : Int), (0 : Int))]) true
        [.sampling [(0, 0, 0)]]).tasks[0]? = some (.sampling [(0, 0, 0)]) ∧
      defaultDetector.has_changed [(0, 0, 0)] [(100, 0, 0)] = true) ∧
    (∃ s1 s2 s3 s4 : CState,
      stepCtl defaultDetector
          ⟨some [(0, 0, 0)], true, [.sampling [(0, 0, 0)]]⟩
          (.sampleStep 0 (some [(100, 0, 0)])) = some s1 ∧
      s1.tasks[0]? = some (.tapping [(100, 0, 0)]) ∧
      s1.baseline = (CState.mk (some [((0 : Int), (0 : Int), (0 : Int))]) true
        [.sampling [(0, 0, 0)]]).baseline ∧
      stepCtl defaultDetector s1 (.tapStep 0) = some s2 ∧
      s2.tasks[0]? = some (.rebasing [(100, 0, 0)]) ∧
      s2.baseline = (CState.mk (some [((0 : Int), (0 : Int), (0 : Int))]) true
        [.sampling [(0, 0, 0)]]).baseline ∧
      stepCtl defaultDetector s2 (.rebaseStep 0) = some s3 ∧
      s3.baseline = some [(100, 0, 0)] ∧
      runCtl defaultDetector s3 [.sleepStep 0, .checkStep 0] = some s4 ∧
      s4.tasks[0]? = some (.sampling [(100, 0, 0)]) ∧
      s4.baseline = some [(100, 0, 0)]) :=
  ⟨⟨by decide, by decide⟩,
    rebase_on_change defaultDetector
      ⟨some [(0, 0, 0)], true, [.sampling [(0, 0, 0)]]⟩ 0
      [(0, 0, 0)] [(100, 0, 0)] (by decide) (by decide) rfl⟩

lemma step_preserves_crashed (d : ChangeDetector) (s : CState) (l : Label)
    (s1 : CState) (tid : Nat) (h : s.tasks[tid]? = some .crashed)
    (hl : stepCtl d s l = some s1) : s1.tasks[tid]? = some .crashed := by
  have hlt : tid < s.tasks.length := (List.getElem?_eq_some.mp h).1
  cases l with
  | press r =>
    by_cases hm : s.monitoring = true
    · simp only [stepCtl, hm, if_true, Option.some.injEq] at hl
      rw [← hl]; exact h
    · cases r with
      | none =>
        simp only [stepCtl, hm, if_false, Bool.false_eq_true,
          Option.some.injEq] at hl
        rw [← hl]; exact h
      | some cols =>
        simp only [stepCtl, hm, if_false, Bool.false_eq_true,
          Option.some.injEq] at hl
        rw [← hl]
        show (s.tasks ++ [.check])[tid]? = some .crashed
        rw [List.getElem?_append_left hlt]; exact h
  | release =>
    simp only [stepCtl, Option.some.injEq] at hl
    rw [← hl]; exact h
  | checkStep t =>
    have hne : t ≠ tid := by
      intro he; subst he
      rcases hpc : s.tasks[t]? with _ | pc
      · rw [hpc] at h; cases h
      · rw [hpc] at h
        simp only [stepCtl, hpc] at hl
        injection h with h'
        subst h'
        cases hl
    rcases hpc : s.tasks[t]? with _ | pc
    · simp [stepCtl, hpc] at hl
    · cases pc with
      | check =>
        by_cases hm : s.monitoring = true
        · rcases hb : s.baseline with _ | bl
          · simp only [stepCtl, hpc, hm, hb, if_true, Option.some.injEq] at hl
            rw [← hl]
            show (s.tasks.set t _)[tid]? = some .crashed
            rw [List.getElem?_set_ne hne]; exact h
          · simp only [stepCtl, hpc, hm, hb, if_true, Option.some.injEq] at hl
            rw [← hl]
            show (s.tasks.set t _)[tid]? = some .crashed
            rw [List.getElem?_set_ne hne]; exact h
        · simp only [stepCtl, hpc, hm, if_false, Bool.false_eq_true,
            Option.some.injEq] at hl
          rw [← hl]
          show (s.tasks.set t _)[tid]? = some .crashed
          rw [List.getElem?_set_ne hne]; exact h
      | sampling b => simp [stepCtl, hpc] at hl
      | tapping c => simp [stepCtl, hpc] at hl
      | rebasing c => simp [stepCtl, hpc] at hl
      | sleeping => simp [stepCtl, hpc] at hl
      | done => simp [stepCtl, hpc] at hl
      | crashed => simp [stepCtl, hpc] at hl
  | sampleStep t r =>
    have hne : t ≠ tid := by
      intro he; subst he
      rcases hpc : s.tasks[t]? with _ | pc
      · rw [hpc] at h; cases h
      · rw [hpc] at h
        simp only [stepCtl, hpc] at hl
        injection h with h'
        subst h'
        cases hl
    rcases hpc : s.tasks[t]? with _ | pc
    · simp [stepCtl, hpc] at hl
    · cases pc with
      | sampling b =>
        cases r with
        | none =>
          simp only [stepCtl, hpc, Option.some.injEq] at hl
          rw [← hl]
          show (s.tasks.set t _)[tid]? = some .crashed
          rw [List.getElem?_set_ne hne]; exact h
        | some cur =>
          by_cases hch : d.has_changed b cur = true
          · simp only [stepCtl, hpc, hch, if_true, Option.some.injEq] at hl
            rw [← hl]
            show (s.tasks.set t _)[tid]? = some .crashed
            rw [List.getElem?_set_ne hne]; exact h
          · simp only [stepCtl, hpc, hch, if_false, Bool.false_eq_true,
              Option.some.injEq] at hl
            rw [← hl]
            show (s.tasks.set t _)[tid]? = some .crashed
            rw [List.getElem?_set_ne hne]; exact h
      | check => simp [stepCtl, hpc] at hl
      | tapping c => simp [stepCtl, hpc] at hl
      | rebasing c => simp [stepCtl, hpc] at hl
      | sleeping => simp [stepCtl, hpc] at hl
      | done => simp [stepCtl, hpc] at hl
      | crashed => simp [stepCtl, hpc] at hl
  | tapStep t =>
    have hne : t ≠ tid := by
      intro he; subst he
      rcases hpc : s.tasks[t]? with _ | pc
      · rw [hpc] at h; cases h
      · rw [hpc] at h
        simp only [stepCtl, hpc] at hl
        injection h with h'
        subst h'
        cases hl
    rcases hpc : s.tasks[t]? with _ | pc
    · simp [stepCtl, hpc] at hl
    · cases pc with
      | tapping c =>
        simp only [stepCtl, hpc, Option.some.injEq] at hl
        rw [← hl]
        show (s.tasks.set t _)[tid]? = some .crashed
        rw [List.getElem?_set_ne hne]; exact h
      | check => simp [stepCtl, hpc] at hl
      | sampling b => simp [stepCtl, hpc] at hl
      | rebasing c => simp [stepCtl, hpc] at hl
      | sleeping => simp [stepCtl, hpc] at hl
      | done => simp [stepCtl, hpc] at hl
      | crashed => simp [stepCtl, hpc] at hl
  | rebaseStep t =>
    have hne : t ≠ tid := by
      intro he; subst he
      rcases hpc : s.tasks[t]? with _ | pc
      · rw [hpc] at h; cases h
      · rw [hpc] at h
        simp only [stepCtl, hpc] at hl
        injection h with h'
        subst h'
        cases hl
    rcases hpc : s.tasks[t]? with _ | pc
    · simp [stepCtl, hpc] at hl
    · cases pc with
      | rebasing c =>
        simp only [stepCtl, hpc, Option.some.injEq] at hl
        rw [← hl]
        show (s.tasks.set t _)[tid]? = some .crashed
        rw [List.getElem?_set_ne hne]; exact h
      | check => simp [stepCtl, hpc] at hl
      | sampling b => simp [stepCtl, hpc] at hl
      | tapping c => simp [stepCtl, hpc] at hl
      | sleeping => simp [stepCtl, hpc] at hl
      | done => simp [stepCtl, hpc] at hl
      | crashed => simp [stepCtl, hpc] at hl
  | sleepStep t =>
    have hne : t ≠ tid := by
      intro he; subst he
      rcases hpc : s.tasks[t]? with _ | pc
      · rw [hpc] at h; cases h
      · rw [hpc] at h
        simp only [stepCtl, hpc] at hl
        injection h with h'
        subst h'
        cases hl
    rcases hpc : s.tasks[t]? with _ | pc
    · simp [stepCtl, hpc] at hl
    · cases pc with
      | sleeping =>
        simp only [stepCtl, hpc, Option.some.injEq] at hl
        rw [← hl]
        show (s.tasks.set t _)[tid]? = some .crashed
        rw [List.getElem?_set_ne hne]; exact h
      | check => simp [stepCtl, hpc] at hl
      | sampling b => simp [stepCtl, hpc] at hl
      | tapping c => simp [stepCtl, hpc] at hl
      | rebasing c => simp [stepCtl, hpc] at hl
      | done => simp [stepCtl, hpc] at hl
      | crashed => simp [stepCtl, hpc] at hl

lemma crashed_forever (d : ChangeDetector) :
    ∀ (ls : List Label) (s s2 : CState) (tid : Nat),
      s.tasks[tid]? = some .crashed → runCtl d s ls = some s2 →
      s2.tasks[tid]? = some .crashed := by
  intro ls
  induction ls with
  | nil =>
    intro s s2 tid h hrun
    simp only [runCtl, Option.some.injEq] at hrun
    rw [← hrun]; exact h
  | cons l rest ih =>
    intro s s2 tid h hrun
    rcases hl : stepCtl d s l with _ | s1
    · rw [runCtl, hl] at hrun; cases hrun
    · rw [runCtl, hl] at hrun
      exact ih s1 s2 tid (step_preserves_crashed d s l s1 tid h hl) hrun

/-- C1 (amended): when the sample call of a polling iteration raises a
CaptureError, no tap is emitted for that iteration, the baseline and the
monitoring flag are left unchanged — but the error is NOT recovered: the
polling thread dies with the exception (`_watch_for_changes` has no handler)
and never performs another loop step, rather than continuing to the next
iteration. -/
theorem captureError_kills_loop (d : ChangeDetector) (s s1 : CState)
    (tid : Nat) (b : List RGB)
    (htask : s.tasks[tid]? = some (.sampling b))
    (hstep : stepCtl d s (.sampleStep tid none) = some s1) :
    s1.baseline = s.baseline ∧ s1.monitoring = s.monitoring ∧
    s1.tasks[tid]? = some .crashed ∧
    (∀ (ls : List Label) (s2 : CState), runCtl d s1 ls = some s2 →
      s2.tasks[tid]? = some .crashed) := by
  obtain ⟨hlt, -⟩ := List.getElem?_eq_some.mp htask
  simp only [stepCtl, htask, Option.some.injEq] at hstep
  have hcr : s1.tasks[tid]? = some .crashed := by
    rw [← hstep]
    exact List.getElem?_set_self (by simpa using hlt)
  refine ⟨by rw [← hstep], by rw [← hstep], hcr, ?_⟩
  intro ls s2 hrun
  exact crashed_forever d ls s1 s2 tid hcr hrun

/-- Witness for `captureError_kills_loop` on a concrete monitoring state. -/
theorem captureError_kills_loop_witness :
    ((CState.mk (some [((0 : Int), (0 : Int), (0 : Int))]) true
        [.sampling [(0, 0, 0)]]).tasks[0]? = some (.sampling [(0, 0, 0)]) ∧
      stepCtl defaultDetector
          ⟨some [(0, 0, 0)], true, [.sampling [(0, 0, 0)]]⟩
          (.sampleStep 0 none) =
        some ⟨some [(0, 0, 0)], true, [.crashed]⟩) ∧
    ((CState.mk (some [((0 : Int), (0 : Int), (0 : Int))]) true
        [.crashed]).baseline =
      (CState.mk (some [((0 : Int), (0 : Int), (0 : Int))]) true
        [.sampling [(0, 0, 0)]]).baseline ∧
      (CState.mk (some [((0 : Int), (0 : Int), (0 : Int))]) true
        [.crashed]).monitoring =
        (CState.mk (some [((0 : Int), (0 : Int), (0 : Int))]) true
          [.sampling [(0, 0, 0)]]).monitoring ∧
      (CState.mk (some [((0 : Int), (0 : Int), (0 : Int))]) true
        [.crashed]).tasks[0]? = some .crashed ∧
      (∀ (ls : List Label) (s2 : CState),
        runCtl defaultDetector ⟨some [(0, 0, 0)], true, [.crashed]⟩ ls = some s2 →
          s2.tasks[0]? = some .crashed)) :=
  ⟨⟨by decide, by decide⟩,
    captureError_kills_loop defaultDetector
      ⟨some [(0, 0, 0)], true, [.sampling [(0, 0, 0)]]⟩
      ⟨some [(0, 0, 0)], true, [.crashed]⟩ 0 [(0, 0, 0)]
      (by decide) (by decide)⟩

/-- C1 counterexample: the claim says a CaptureError leaves the loop running
into its next iteration; in the code the thread transitions to the crashed
state instead of the sleeping state a no-change iteration would produce. -/
theorem captureError_not_recovered_cex :
    (runCtl defaultDetector initState
      [.press (some [(0, 0, 0)]), .checkStep 0, .sampleStep 0 none]).map
        (fun s => s.tasks[0]?) = some (some .crashed) := by
  decide

/-- Number of sample calls a polling thread can still make once monitoring
has stopped for good: one if it has already passed its locked check, none
otherwise. -/
def pcSamples : LoopPC → Nat
  | .sampling _ => 1
  | _ => 0

lemma step_keeps_stopped (d : ChangeDetector) (s s1 : CState) (l : Label)
    (hm : s.monitoring = false) (hnp : l.isPressLbl = false)
    (hl : stepCtl d s l = some s1) : s1.monitoring = false := by
  cases l with
  | press r => simp [Label.isPressLbl] at hnp
  | release =>
    simp only [stepCtl, Option.some.injEq] at hl
    rw [← hl]
  | checkStep t =>
    rcases hpc : s.tasks[t]? with _ | pc
    · simp [stepCtl, hpc] at hl
    · cases pc with
      | check =>
        simp only [stepCtl, hpc, hm, if_false, Bool.false_eq_true,
          Option.some.injEq] at hl
        rw [← hl]
      | sampling b => simp [stepCtl, hpc] at hl
      | tapping c => simp [stepCtl, hpc] at hl
      | rebasing c => simp [stepCtl, hpc] at hl
      | sleeping => simp [stepCtl, hpc] at hl
      | done => simp [stepCtl, hpc] at hl
      | crashed => simp [stepCtl, hpc] at hl
  | sampleStep t r =>
    rcases hpc : s.tasks[t]? with _ | pc
    · simp [stepCtl, hpc] at hl
    · cases pc with
      | sampling b =>
        cases r with
        | none =>
          simp only [stepCtl, hpc, Option.some.injEq] at hl
          rw [← hl]; exact hm
        | some cur =>
          by_cases hch : d.has_changed b cur = true
          · simp only [stepCtl, hpc, hch, if_true, Option.some.injEq] at hl
            rw [← hl]; exact hm
          · simp only [stepCtl, hpc, hch, if_false, Bool.false_eq_true,
              Option.some.injEq] at hl
            rw [← hl]; exact hm
      | check => simp [stepCtl, hpc] at hl
      | tapping c => simp [stepCtl, hpc] at hl
      | rebasing c => simp [stepCtl, hpc] at hl
      | sleeping => simp [stepCtl, hpc] at hl
      | done => simp [stepCtl, hpc] at hl
      | crashed => simp [stepCtl, hpc] at hl
  | tapStep t =>
    rcases hpc : s.tasks[t]? with _ | pc
    · simp [stepCtl, hpc] at hl
    · cases pc with
      | tapping c =>
        simp only [stepCtl, hpc, Option.some.injEq] at hl
        rw [← hl]; exact hm
      | check => simp [stepCtl, hpc] at hl
      | sampling b => simp [stepCtl, hpc] at hl
      | rebasing c => simp [stepCtl, hpc] at hl
      | sleeping => simp [stepCtl, hpc] at hl
      | done => simp [stepCtl, hpc] at hl
      | crashed => simp [stepCtl, hpc] at hl
  | rebaseStep t =>
    rcases hpc : s.tasks[t]? with _ | pc
    · simp [stepCtl, hpc] at hl
    · cases pc with
      | rebasing c =>
        simp only [stepCtl, hpc, Option.some.injEq] at hl
        rw [← hl]; exact hm
      | check => simp [stepCtl, hpc] at hl
      | sampling b => simp [stepCtl, hpc] at hl
      | tapping c => simp [stepCtl, hpc] at hl
      | sleeping => simp [stepCtl, hpc] at hl
      | done => simp [stepCtl, hpc] at hl
      | crashed => simp [stepCtl, hpc] at hl
  | sleepStep t =>
    rcases hpc : s.tasks[t]? with _ | pc
    · simp [stepCtl, hpc] at hl
    · cases pc with
      | sleeping =>
        simp only [stepCtl, hpc, Option.some.injEq] at hl
        rw [← hl]; exact hm
      | check => simp [stepCtl, hpc] at hl
      | sampling b => simp [stepCtl, hpc] at hl
      | tapping c => simp [stepCtl, hpc] at hl
      | rebasing c => simp [stepCtl, hpc] at hl
      | done => simp [stepCtl, hpc] at hl
      | crashed => simp [stepCtl, hpc] at hl

lemma step_sampleBound (d : ChangeDetector) (s s1 : CState) (l : Label)
    (tid : Nat) (hm : s.monitoring = false) (hnp : l.isPressLbl = false)
    (hl : stepCtl d s l = some s1) :
    pcSamples (taskPC s1 tid) + (if l.isSampleOf tid = true then 1 else 0)
      ≤ pcSamples (taskPC s tid) := by
  cases l with
  | press r => simp [Label.isPressLbl] at hnp
  | release =>
    simp only [stepCtl, Option.some.injEq] at hl
    rw [← hl]
    simp [Label.isSampleOf, taskPC]
  | checkStep t =>
    rcases hpc : s.tasks[t]? with _ | pc
    · simp [stepCtl, hpc] at hl
    · cases pc with
      | check =>
        have hlt : t < s.tasks.length := (List.getElem?_eq_some.mp hpc).1
        simp only [stepCtl, hpc, hm, if_false, Bool.false_eq_true,
          Option.some.injEq] at hl
        rw [← hl]
        simp only [Label.isSampleOf, if_false, Bool.false_eq_true, add_zero]
        by_cases hte : t = tid
        · subst hte
          simp [taskPC, List.getElem?_set_self hlt, hpc, pcSamples]
        · simp [taskPC, List.getElem?_set_ne hte]
      | sampling b => simp [stepCtl, hpc] at hl
      | tapping c => simp [stepCtl, hpc] at hl
      | rebasing c => simp [stepCtl, hpc] at hl
      | sleeping => simp [stepCtl, hpc] at hl
      | done => simp [stepCtl, hpc] at hl
      | crashed => simp [stepCtl, hpc] at hl
  | sampleStep t r =>
    rcases hpc : s.tasks[t]? with _ | pc
    · simp [stepCtl, hpc] at hl
    · cases pc with
      | sampling b =>
        have hlt : t < s.tasks.length := (List.getElem?_eq_some.mp hpc).1
        by_cases hte : t = tid
        · subst hte
          have hlbl : (Label.sampleStep t r).isSampleOf t = true := by
            simp [Label.isSampleOf]
          rw [hlbl]
          cases r with
          | none =>
            simp only [stepCtl, hpc, Option.some.injEq] at hl
            rw [← hl]
            simp [taskPC, List.getElem?_set_self hlt, hpc, pcSamples]
          | some cur =>
            by_cases hch : d.has_changed b cur = true
            · simp only [stepCtl, hpc, hch, if_true, Option.some.injEq] at hl
              rw [← hl]
              simp [taskPC, List.getElem?_set_self hlt, hpc, pcSamples]
            · simp only [stepCtl, hpc, hch, if_false, Bool.false_eq_true,
                Option.some.injEq] at hl
              rw [← hl]
              simp [taskPC, List.getElem?_set_self hlt, hpc, pcSamples]
        · have hlbl : (Label.sampleStep t r).isSampleOf tid = false := by
            simp [Label.isSampleOf, hte]
          rw [hlbl]
          cases r with
          | none =>
            simp only [stepCtl, hpc, Option.some.injEq] at hl
            rw [← hl]
            simp [taskPC, List.getElem?_set_ne hte]
          | some cur =>
            by_cases hch : d.has_changed b cur = true
            · simp only [stepCtl, hpc, hch, if_true, Option.some.injEq] at hl
              rw [← hl]
              simp [taskPC, List.getElem?_set_ne hte]
            · simp only [stepCtl, hpc, hch, if_false, Bool.false_eq_true,
                Option.some.injEq] at hl
              rw [← hl]
              simp [taskPC, List.getElem?_set_ne hte]
      | check => simp [stepCtl, hpc] at hl
      | tapping c => simp [stepCtl, hpc] at hl
      | rebasing c => simp [stepCtl, hpc] at hl
      | sleeping => simp [stepCtl, hpc] at hl
      | done => simp [stepCtl, hpc] at hl
      | crashed => simp [stepCtl, hpc] at hl
  | tapStep t =>
    rcases hpc : s.tasks[t]? with _ | pc
    · simp [stepCtl, hpc] at hl
    · cases pc with
      | tapping c =>
        have hlt : t < s.tasks.length := (List.getElem?_eq_some.mp hpc).1
        simp only [stepCtl, hpc, Option.some.injEq] at hl
        rw [← hl]
        simp only [Label.isSampleOf, if_false, Bool.false_eq_true, add_zero]
        by_cases hte : t = tid
        · subst hte
          simp [taskPC, List.getElem?_set_self hlt, hpc, pcSamples]
        · simp [taskPC, List.getElem?_set_ne hte]
      | check => simp [stepCtl, hpc] at hl
      | sampling b => simp [stepCtl, hpc] at hl
      | rebasing c => simp [stepCtl, hpc] at hl
      | sleeping => simp [stepCtl, hpc] at hl
      | done => simp [stepCtl, hpc] at hl
      | crashed => simp [stepCtl, hpc] at hl
  | rebaseStep t =>
    rcases hpc : s.tasks[t]? with _ | pc
    · simp [stepCtl, hpc] at hl
    · cases pc with
      | rebasing c =>
        have hlt : t < s.tasks.length := (List.getElem?_eq_some.mp hpc).1
        simp only [stepCtl, hpc, Option.some.injEq] at hl
        rw [← hl]
        simp only [Label.isSampleOf, if_false, Bool.false_eq_true, add_zero]
        by_cases hte : t = tid
        · subst hte
          simp [taskPC, List.getElem?_set_self hlt, hpc, pcSamples]
        · simp [taskPC, List.getElem?_set_ne hte]
      | check => simp [stepCtl, hpc] at hl
      | sampling b => simp [stepCtl, hpc] at hl
      | tapping c => simp [stepCtl, hpc] at hl
      | sleeping => simp [stepCtl, hpc] at hl
      | done => simp [stepCtl, hpc] at hl
      | crashed => simp [stepCtl, hpc] at hl
  | sleepStep t =>
    rcases hpc : s.tasks[t]? with _ | pc
    · simp [stepCtl, hpc] at hl
    · cases pc with
      | sleeping =>
        have hlt : t < s.tasks.length := (List.getElem?_eq_some.mp hpc).1
        simp only [stepCtl, hpc, Option.some.injEq] at hl
        rw [← hl]
        simp only [Label.isSampleOf, if_false, Bool.false_eq_true, add_zero]
        by_cases hte : t = tid
        · subst hte
          simp [taskPC, List.getElem?_set_self hlt, hpc, pcSamples]
        · simp [taskPC, List.getElem?_set_ne hte]
      | check => simp [stepCtl, hpc] at hl
      | sampling b => simp [stepCtl, hpc] at hl
      | tapping c => simp [stepCtl, hpc] at hl
      | rebasing c => simp [stepCtl, hpc] at hl
      | done => simp [stepCtl, hpc] at hl
      | crashed => simp [stepCtl, hpc] at hl

lemma sampleCount_le_pcSamples (d : ChangeDetector) :
    ∀ (ls : List Label) (s s2 : CState) (tid : Nat),
      s.monitoring = false → (∀ l ∈ ls, l.isPressLbl = false) →
      runCtl d s ls = some s2 →
      ls.countP (Label.isSampleOf tid) ≤ pcSamples (taskPC s tid) := by
  intro ls
  induction ls with
  | nil => intro s s2 tid _ _ _; simp
  | cons l rest ih =>
    intro s s2 tid hm hnp hrun
    rcases hl : stepCtl d s l with _ | s1
    · rw [runCtl, hl] at hrun; cases hrun
    · rw [runCtl, hl] at hrun
      have hm1 := step_keeps_stopped d s s1 l hm (hnp l (by simp)) hl
      have hrest := ih s1 s2 tid hm1 (fun x hx => hnp x (by simp [hx])) hrun
      have hstep := step_sampleBound d s s1 l tid hm (hnp l (by simp)) hl
      rw [List.countP_cons]
      by_cases hs : l.isSampleOf tid = true
      · simp only [hs, if_true] at hstep ⊢
        omega
      · simp only [hs, if_false, Bool.false_eq_true, add_zero] at hstep ⊢
        omega

/-- C6: cooperative stop latency.  From any state in which monitoring is off,
as long as no further `ButtonPressed` arrives, any execution lets a given
polling thread perform at most one more sample-and-compare cycle (at most one
sample step occurs for that thread in the whole remaining trace); moreover a
thread standing at its locked state check while monitoring is off exits the
loop at that very check. -/
theorem stop_latency_one_cycle (d : ChangeDetector) (s s2 : CState) (tid : Nat)
    (ls : List Label) (hm : s.monitoring = false)
    (hnp : ∀ l ∈ ls, l.isPressLbl = false)
    (hrun : runCtl d s ls = some s2) :
    ls.countP (Label.isSampleOf tid) ≤ 1 ∧
    (∀ u : CState, u.monitoring = false → u.tasks[tid]? = some .check →
      stepCtl d u (.checkStep tid) =
        some { u with tasks := u.tasks.set tid .done }) := by
  constructor
  · have h := sampleCount_le_pcSamples d ls s s2 tid hm hnp hrun
    have hb : pcSamples (taskPC s tid) ≤ 1 := by
      cases taskPC s tid <;> simp [pcSamples]
    omega
  · intro u hu hc
    simp [stepCtl, hc, hu]

/-- Witness for `stop_latency_one_cycle`: after a release caught a thread
mid-cycle, the thread's remaining trace contains exactly one sample step and
its next check exits. -/
theorem stop_latency_one_cycle_witness :
    ((CState.mk none false [.sampling [((0 : Int), (0 : Int), (0 : Int))]]).monitoring
        = false ∧
      (∀ l ∈ ([.sampleStep 0 (some [(100, 0, 0)]), .tapStep 0, .rebaseStep 0,
          .sleepStep 0, .checkStep 0] : List Label), l.isPressLbl = false) ∧
      runCtl defaultDetector ⟨none, false, [.sampling [(0, 0, 0)]]⟩
          [.sampleStep 0 (some [(100, 0, 0)]), .tapStep 0, .rebaseStep 0,
           .sleepStep 0, .checkStep 0] =
        some ⟨some [(100, 0, 0)], false, [.done]⟩) ∧
    (([.sampleStep 0 (some [((100 : Int), (0 : Int), (0 : Int))]), .tapStep 0,
        .rebaseStep 0, .sleepStep 0, .checkStep 0] : List Label).countP
          (Label.isSampleOf 0) ≤ 1 ∧
      (∀ u : CState, u.monitoring = false → u.tasks[0]? = some .check →
        stepCtl defaultDetector u (.checkStep 0) =
          some { u with tasks := u.tasks.set 0 .done })) :=
  ⟨⟨rfl, by decide, by decide⟩,
    stop_latency_one_cycle defaultDetector
      ⟨none, false, [.sampling [(0, 0, 0)]]⟩
      ⟨some [(100, 0, 0)], false, [.done]⟩ 0
      [.sampleStep 0 (some [(100, 0, 0)]), .tapStep 0, .rebaseStep 0,
       .sleepStep 0, .checkStep 0]
      rfl (by decide) (by decide)⟩

end ChangeClick
